import Mathlib

/-!
Shallow embedding of the parsing and normalization layer of the VyOS
NAPALM driver (`napalm_vyos/vyos.py`), covering the routines the
claims are about: `_bgp_time_conversion`, `get_arp_table`,
`get_users`, `get_interfaces_counters`, the per-row body of
`get_bgp_neighbors`, and the result-assembly part of `ping`.

Python strings are modelled as `List Char`.  A Python operation that
can raise (KeyError, IndexError, ValueError, NameError,
AttributeError on a failed regex match) is modelled as returning
`Option`, with `none` standing for any raised exception; a caller of
such an operation propagates `none`, mirroring exception propagation.
Regular-expression scanning is implemented directly for the concrete
patterns the source uses, with Python's leftmost-match,
greedy-with-backtracking semantics.  Functions that perform I/O in the
source take the corresponding command output as an explicit argument.
-/

namespace VyOS

/-- Python whitespace (for `str.split()` with no argument and for the
regex class of whitespace): space, tab, newline, carriage return,
vertical tab (11), form feed (12). -/
def pyIsSpace (c : Char) : Bool :=
  c == ' ' || c == '\t' || c == '\n' || c == '\r' || c == Char.ofNat 11 || c == Char.ofNat 12

/-- Python word character (`\w` on a byte string, ASCII): letters,
digits, underscore. -/
def pyIsWord (c : Char) : Bool := c.isAlphanum || c == '_'

/-- The single-quote character; `get_users` calls `strip("'")` on
configuration values. -/
def sq : Char := Char.ofNat 39

/-- Python `s.split(sep)` for a one-character separator: splits at
every occurrence of the separator, keeping empty pieces
(`"".split(c) == [""]`). -/
def pySplitChar (c : Char) : List Char → List (List Char)
  | [] => [[]]
  | x :: xs =>
    if x = c then [] :: pySplitChar c xs
    else
      match pySplitChar c xs with
      | [] => [[x]]
      | r :: rs => (x :: r) :: rs

/-- Helper for `pySplitWs`: accumulates the current word (reversed). -/
def pySplitWsAux : List Char → List Char → List (List Char)
  | [], acc => if acc = [] then [] else [acc.reverse]
  | c :: cs, acc =>
    if pyIsSpace c then
      if acc = [] then pySplitWsAux cs [] else acc.reverse :: pySplitWsAux cs []
    else pySplitWsAux cs (c :: acc)

/-- Python `s.split()` with no argument: split on runs of whitespace,
discarding empty pieces. -/
def pySplitWs (s : List Char) : List (List Char) := pySplitWsAux s []

/-- Python `s.strip(c)` for a one-character argument: removes every
leading and trailing occurrence of that character. -/
def pyStripChar (c : Char) (s : List Char) : List Char :=
  ((s.dropWhile (fun x => x == c)).reverse.dropWhile (fun x => x == c)).reverse

/-- Python `s.strip()` with no argument: removes leading and trailing
whitespace. -/
def pyStripWs (s : List Char) : List Char :=
  ((s.dropWhile pyIsSpace).reverse.dropWhile pyIsSpace).reverse

/-- Decimal value of a digit string. -/
def natOfDigits (s : List Char) : Nat :=
  s.foldl (fun a c => a * 10 + (c.toNat - 48)) 0

/-- Python `int(s)`: optional surrounding whitespace, optional sign,
then a nonempty run of decimal digits; anything else raises
`ValueError` (`none`). -/
def pyInt? (s : List Char) : Option Int :=
  match pyStripWs s with
  | [] => none
  | c :: rest =>
    if c = '-' then
      if rest ≠ [] ∧ rest.all Char.isDigit then some (-(natOfDigits rest : Int)) else none
    else if c = '+' then
      if rest ≠ [] ∧ rest.all Char.isDigit then some ((natOfDigits rest : Int)) else none
    else if (c :: rest).all Char.isDigit then some ((natOfDigits (c :: rest) : Int)) else none

/-- Python substring test `pat in s`. -/
def isSubstr (pat s : List Char) : Bool :=
  (List.range (s.length + 1)).any (fun i => List.isPrefixOf pat (s.drop i))

/-- Python `c in s` for a single character. -/
def hasChar (c : Char) (s : List Char) : Bool := s.any (fun x => x == c)

/-- Effectful map over a list in the `Option` monad; `none` as soon as
one element fails (models a Python loop aborted by an exception). -/
def optMapM {α β : Type} (f : α → Option β) : List α → Option (List β)
  | [] => some []
  | a :: as =>
    match f a with
    | none => none
    | some b =>
      match optMapM f as with
      | none => none
      | some bs => some (b :: bs)

/-- Token at position `n` of a token list (defaulting to the empty
string); used to state theorems about fixed column positions. -/
def tok (l : List (List Char)) (n : Nat) : List Char := (l.get? n).getD []

/-- Python `l[-k]` for `k ≥ 1`: `IndexError` (`none`) when the list is
shorter than `k`. -/
def pyIndexNeg {α : Type} (l : List α) (k : Nat) : Option α :=
  if 1 ≤ k ∧ k ≤ l.length then l.get? (l.length - k) else none

/-- Replace-or-append update of an association list, mirroring
`dict.update({k: v})` on a Python dict kept in insertion order. -/
def dictUpdate {V : Type} (m : List (List Char × V)) (k : List Char) (v : V) :
    List (List Char × V) :=
  if ∃ p ∈ m, p.1 = k then m.map (fun p => if p.1 = k then (k, v) else p) else m ++ [(k, v)]

/-! ## Duration parser (`_bgp_time_conversion`, vyos.py 402-422) -/

def _MINUTE_SECONDS : Int := 60
def _HOUR_SECONDS : Int := 60 * _MINUTE_SECONDS
def _DAY_SECONDS : Int := 24 * _HOUR_SECONDS
def _WEEK_SECONDS : Int := 7 * _DAY_SECONDS
def _YEAR_SECONDS : Int := 365 * _DAY_SECONDS

/-- The `times` dictionary of `_bgp_time_conversion`.  A key outside
{y, w, d, h} raises `KeyError` (`none`); note in particular that the
table has no entry for `m` (minutes). -/
def unitTable (c : Char) : Option Int :=
  if c = 'y' then some _YEAR_SECONDS
  else if c = 'w' then some _WEEK_SECONDS
  else if c = 'd' then some _DAY_SECONDS
  else if c = 'h' then some _HOUR_SECONDS
  else none

/-- All ways a greedy `\d+` can match a prefix of `cs`, longest first
(Python's greedy-with-backtracking preference order). -/
def digitPrefixSplits (cs : List Char) : List (List Char × List Char) :=
  let n := (cs.takeWhile Char.isDigit).length
  (List.range n).map (fun i => (cs.take (n - i), cs.drop (n - i)))

/-- First success of `f` over a list of candidates (backtracking). -/
def firstSome {α β : Type} (f : α → Option β) : List α → Option β
  | [] => none
  | a :: as =>
    match f a with
    | some b => some b
    | none => firstSome f as

/-- Match one `\w`. -/
def matchW : List Char → Option (Char × List Char)
  | [] => none
  | c :: rest => if pyIsWord c then some (c, rest) else none

/-- Match the anchored regex of six alternating groups digits-run /
word-char used by `_bgp_time_conversion`, with Python backtracking
preference (earlier groups as long as possible). -/
def matchDWDWDW (cs : List Char) :
    Option (List Char × Char × List Char × Char × List Char × Char) :=
  firstSome (fun p1 =>
      (matchW p1.2).bind (fun q1 =>
        firstSome (fun p2 =>
            (matchW p2.2).bind (fun q2 =>
              firstSome (fun p3 =>
                  (matchW p3.2).map (fun q3 => (p1.1, q1.1, p2.1, q2.1, p3.1, q3.1)))
                (digitPrefixSplits q2.2)))
          (digitPrefixSplits q1.2)))
    (digitPrefixSplits cs)

/-- Leftmost match of the six-group duration regex (`re.search`). -/
def searchDWDWDW : List Char → Option (List Char × Char × List Char × Char × List Char × Char)
  | [] => none
  | c :: cs =>
    match matchDWDWDW (c :: cs) with
    | some r => some r
    | none => searchDWDWDW cs

/-- `VyOSDriver._bgp_time_conversion` (vyos.py 402-422).  Branches:
literal substring "never" gives -1; a string containing a colon is
split on colons and unpacked as exactly three integers; otherwise, if
the string contains one of the letters y/w/h/d, the six-group regex is
searched and each letter group looked up in the unit table.  A string
hitting no branch leaves the local `uptime` unassigned and the final
`return uptime` raises `NameError` (`none`). -/
def _bgp_time_conversion (bgp_uptime : List Char) : Option Int :=
  if isSubstr "never".data bgp_uptime then some (-1)
  else if hasChar ':' bgp_uptime then
    match optMapM pyInt? (pySplitChar ':' bgp_uptime) with
    | some [h, m, s] => some (h * _HOUR_SECONDS + m * _MINUTE_SECONDS + s)
    | _ => none
  else if hasChar 'y' bgp_uptime || hasChar 'w' bgp_uptime ||
      hasChar 'h' bgp_uptime || hasChar 'd' bgp_uptime then
    match searchDWDWDW bgp_uptime with
    | none => none
    | some (d1, w1, d2, w2, d3, w3) =>
      match pyInt? d1, unitTable w1, pyInt? d2, unitTable w2, pyInt? d3, unitTable w3 with
      | some n1, some t1, some n2, some t2, some n3, some t3 =>
        some (n1 * t1 + n2 * t2 + n3 * t3)
      | _, _, _, _, _, _ => none
  else none

/-! ## ARP table (`get_arp_table`, vyos.py 222-255) -/

structure ArpEntry where
  interface : List Char
  mac : List Char
  ip : List Char
  age : Option Int
deriving DecidableEq

/-- Body of the `get_arp_table` loop for one data line: split on
whitespace and read fixed columns 4 (interface), 2 (mac), 0 (ip); a
missing column is an `IndexError` (`none`).  Column 4 is read first,
as in the source's dict literal. -/
def arpRow (line : List Char) : Option ArpEntry :=
  let toks := pySplitWs line
  match toks.get? 4 with
  | none => none
  | some i4 =>
    match toks.get? 2 with
    | none => none
    | some i2 =>
      match toks.get? 0 with
      | none => none
      | some i0 => some { interface := i4, mac := i2, ip := i0, age := none }

/-- `VyOSDriver.get_arp_table` (vyos.py 222-255): split the output
into lines, slice `[1:-1]` (drop header and final line), and build one
entry per remaining line. -/
def get_arp_table (output : List Char) : Option (List ArpEntry) :=
  optMapM arpRow (((pySplitChar '\n' output).drop 1).dropLast)

/-! ## Users (`get_users`, vyos.py 624-664) -/

structure UserRec where
  level : Int
  password : List Char
  sshkeys : List (List Char)
deriving DecidableEq

/-- Deduplication keeping first occurrences; models `list(set(...))`.
CPython's set iteration order is unspecified; first-occurrence order is
fixed here, and the theorems below do not depend on that choice. -/
def pyDedup : List (List Char) → List (List Char)
  | [] => []
  | x :: xs => x :: (pyDedup xs).filter (fun y => y != x)

/-- Inner loop of `get_users` over the lines selected for one user.
State: the `level` and `password` local variables (possibly still
unbound, and carried over from previous users), and the per-user
`sshkeys` list.  `line[6]` is evaluated first, so a selected line with
fewer than 7 tokens raises `IndexError` (`none`). -/
def userFold : List (List (List Char)) → Option Int → Option (List Char) → List (List Char) →
    Option (Option Int × Option (List Char) × List (List Char))
  | [], lvl, pwd, keys => some (lvl, pwd, keys)
  | line :: rest, lvl, pwd, keys =>
    match line.get? 6 with
    | none => none
    | some t6 =>
      if t6 = "encrypted-password".data then
        match line.get? 7 with
        | none => none
        | some t7 => userFold rest lvl (some (pyStripChar sq t7)) keys
      else
        match line.get? 5 with
        | none => none
        | some t5 =>
          if t5 = "level".data then
            (if pyStripChar sq t6 = "admin".data then userFold rest (some 15) pwd keys
             else userFold rest (some 0) pwd keys)
          else if line.length = 10 ∧ line.get? 8 = some "key".data then
            userFold rest lvl pwd (keys ++ [pyStripChar sq (tok line 9)])
          else userFold rest lvl pwd keys

/-- Outer loop of `get_users` over the distinct user names.  For each
user the lines selected are those containing the user name as a token
(Python's `user in x` on a token list).  `level` and `password` are
NOT re-initialized between users; building the record with either
still unbound raises `NameError` (`none`). -/
def usersLoop (user_conf : List (List (List Char))) :
    List (List Char) → Option Int → Option (List Char) → List (List Char × UserRec) →
    Option (List (List Char × UserRec))
  | [], _, _, acc => some acc
  | user :: rest, lvl, pwd, acc =>
    match userFold (user_conf.filter (fun x => x.contains user)) lvl pwd [] with
    | none => none
    | some (lvl2, pwd2, keys) =>
      match lvl2, pwd2 with
      | some l, some pw =>
        usersLoop user_conf rest lvl2 pwd2
          (dictUpdate acc user { level := l, password := pw, sshkeys := keys })
      | _, _ => none

/-- `VyOSDriver.get_users` (vyos.py 624-664): keep the lines containing
the substring "login", tokenize them, collect the distinct tokens at
position 4 as user names, then run the per-user accumulation. -/
def get_users (output : List Char) : Option (List (List Char × UserRec)) :=
  let user_conf := ((pySplitChar '\n' output).filter
    (fun x => isSubstr "login".data x)).map pySplitWs
  match optMapM (fun x => x.get? 4) user_conf with
  | none => none
  | some names => usersLoop user_conf (pyDedup names) none none []

/-! ## Interface counters (`get_interfaces_counters`, vyos.py 425-475) -/

/-- One six-number statistic row captured by the regex of six
digit-run groups each followed by whitespace. -/
structure Row6 where
  f0 : List Char
  f1 : List Char
  f2 : List Char
  f3 : List Char
  f4 : List Char
  f5 : List Char
deriving DecidableEq

/-- Match one `(\d+)\s+` at the start of `cs`; both runs maximal
(digits and whitespace are disjoint character classes, so greedy
matching needs no backtracking here). -/
def matchNumWs (cs : List Char) : Option (List Char × List Char) :=
  let d := cs.takeWhile Char.isDigit
  if d = [] then none
  else
    let r := cs.dropWhile Char.isDigit
    if r.takeWhile pyIsSpace = [] then none
    else some (d, r.dropWhile pyIsSpace)

/-- Match the anchored six-group statistic-row regex. -/
def matchCount6 (cs : List Char) : Option (Row6 × List Char) :=
  match matchNumWs cs with
  | none => none
  | some (d0, r0) =>
    match matchNumWs r0 with
    | none => none
    | some (d1, r1) =>
      match matchNumWs r1 with
      | none => none
      | some (d2, r2) =>
        match matchNumWs r2 with
        | none => none
        | some (d3, r3) =>
          match matchNumWs r3 with
          | none => none
          | some (d4, r4) =>
            match matchNumWs r4 with
            | none => none
            | some (d5, r5) => some (⟨d0, d1, d2, d3, d4, d5⟩, r5)

/-- `re.findall` scan for the statistic-row regex: leftmost,
non-overlapping, resuming after each match.  The fuel starts at the
input length; every step consumes at least one character, so the fuel
never runs out before the input does. -/
def findAllCountF : Nat → List Char → List Row6
  | 0, _ => []
  | _ + 1, [] => []
  | fuel + 1, c :: rest =>
    match matchCount6 (c :: rest) with
    | some (row, rem) => row :: findAllCountF fuel rem
    | none => findAllCountF fuel rest

def findAllCount (cs : List Char) : List Row6 := findAllCountF cs.length cs

/-- Match the interface-header regex (a nonspace run, then the literal
colon-space-langle, then the rest of the line) at the start of `cs`,
trying the longest capture first (Python backtracking on the greedy
nonspace run).  Returns the capture and the rest of the input after
the match. -/
def matchIfaceAt (cs : List Char) : Option (List Char × List Char) :=
  let n := (cs.takeWhile (fun c => !(pyIsSpace c))).length
  firstSome (fun k =>
      if List.isPrefixOf ": <".data (cs.drop k) then
        some (cs.take k, ((cs.drop k).drop 3).dropWhile (fun c => !(c == '\n')))
      else none)
    ((List.range n).map (fun i => n - i))

/-- `re.findall` scan for interface headers (fuel as above). -/
def findIfaceNamesF : Nat → List Char → List (List Char)
  | 0, _ => []
  | _ + 1, [] => []
  | fuel + 1, c :: rest =>
    match matchIfaceAt (c :: rest) with
    | some (name, rem) => name :: findIfaceNamesF fuel rem
    | none => findIfaceNamesF fuel rest

def findIfaceNames (cs : List Char) : List (List Char) := findIfaceNamesF cs.length cs

/-- The RX-row local variables saved on an even-index statistic row
(`rx_errors`, `rx_discards`, `rx_octets`, `rx_multicast_packets`; the
unicast/broadcast variables are the constant `None`). -/
structure RxSave where
  rx_errors : List Char
  rx_discards : List Char
  rx_octets : List Char
  rx_multicast : List Char
deriving DecidableEq

/-- One value of the counters dict: the source stores the captured
digit strings themselves (not integers) for the observed fields, and
the literal `None` for the five unimplemented fields. -/
structure CounterRec where
  tx_errors : Option (List Char)
  tx_discards : Option (List Char)
  tx_octets : Option (List Char)
  tx_unicast_packets : Option (List Char)
  tx_multicast_packets : Option (List Char)
  tx_broadcast_packets : Option (List Char)
  rx_errors : Option (List Char)
  rx_discards : Option (List Char)
  rx_octets : Option (List Char)
  rx_unicast_packets : Option (List Char)
  rx_multicast_packets : Option (List Char)
  rx_broadcast_packets : Option (List Char)
deriving DecidableEq

/-- The record built on a TX (odd-index) row from the saved RX data
and the TX row `i`. -/
def mkCounterRec (rx : RxSave) (i : Row6) : CounterRec :=
  { tx_errors := some i.f2
    tx_discards := some i.f3
    tx_octets := some i.f0
    tx_unicast_packets := none
    tx_multicast_packets := none
    tx_broadcast_packets := none
    rx_errors := some rx.rx_errors
    rx_discards := some rx.rx_discards
    rx_octets := some rx.rx_octets
    rx_unicast_packets := none
    rx_multicast_packets := some rx.rx_multicast
    rx_broadcast_packets := none }

/-- The row loop of `get_interfaces_counters`: `j` counts statistic
rows; an even row saves the RX variables, an odd row emits the entry
for `interfaces[j / 2]` (an out-of-range index is `IndexError`,
`none`; an odd row with no saved RX data would be a `NameError`,
unreachable from the initial state). -/
def gicLoop (interfaces : List (List Char)) (rows : List Row6) (j : Nat)
    (rxSt : Option RxSave) (acc : List (List Char × CounterRec)) :
    Option (List (List Char × CounterRec)) :=
  match rows with
  | [] => some acc
  | i :: rest =>
    if j % 2 = 0 then
      gicLoop interfaces rest (j + 1) (some ⟨i.f2, i.f3, i.f0, i.f5⟩) acc
    else
      match rxSt with
      | none => none
      | some rx =>
        match interfaces.get? (j / 2) with
        | none => none
        | some name => gicLoop interfaces rest (j + 1) rxSt (dictUpdate acc name (mkCounterRec rx i))

/-- `VyOSDriver.get_interfaces_counters` (vyos.py 425-475). -/
def get_interfaces_counters (output : List Char) :
    Option (List (List Char × CounterRec)) :=
  gicLoop (findIfaceNames output) (findAllCount output) 0 none []

/-! ## BGP summary rows (`get_bgp_neighbors` loop body, vyos.py 341-397) -/

/-- `(\d+, \d+)` splits of a digit run for one address component:
greedy run and its remainder. -/
def grabDigits (cs : List Char) : List Char × List Char :=
  (cs.takeWhile Char.isDigit, cs.dropWhile Char.isDigit)

/-- Match the dotted-quad regex of four digit runs separated by
literal dots, anchored at `cs`.  Each digit run is maximal (a shorter
run would be followed by a digit, not a dot, so greedy matching needs
no backtracking). -/
def matchIPv4 (cs : List Char) : Option (List Char) :=
  let (d1, r1) := grabDigits cs
  if d1 = [] then none else
  match r1 with
  | '.' :: r2 =>
    let (d2, r3) := grabDigits r2
    if d2 = [] then none else
    match r3 with
    | '.' :: r4 =>
      let (d3, r5) := grabDigits r4
      if d3 = [] then none else
      match r5 with
      | '.' :: r6 =>
        let (d4, _) := grabDigits r6
        if d4 = [] then none else some (d1 ++ '.' :: (d2 ++ '.' :: (d3 ++ '.' :: d4)))
      | _ => none
    | _ => none
  | _ => none

/-- `re.search` for the literal "remote router ID " followed by a
dotted quad (the trailing dot-star of the source pattern does not
affect the captured group). -/
def searchRemoteRID : List Char → Option (List Char)
  | [] => none
  | c :: rest =>
    match (if List.isPrefixOf "remote router ID ".data (c :: rest) then
        matchIPv4 ((c :: rest).drop ("remote router ID ".data.length))
      else none) with
    | some ip => some ip
    | none => searchRemoteRID rest

/-- `re.search` for a digit run followed by the literal
" accepted prefixes"; returns the digit group. -/
def searchAccepted : List Char → Option (List Char)
  | [] => none
  | c :: rest =>
    (let (d, r) := grabDigits (c :: rest)
     if d ≠ [] ∧ List.isPrefixOf " accepted prefixes".data r then some d
     else searchAccepted rest)

structure AfRec where
  sent_prefixes : Option Int
  accepted_prefixes : Int
  received_prefixes : Option Int
deriving DecidableEq

structure PeerRec where
  description : List Char
  is_enabled : Bool
  local_as : Int
  is_up : Bool
  remote_id : List Char
  uptime : Int
  remote_as : Int
  address_family : List Char × AfRec
deriving DecidableEq

/-- Body of the `get_bgp_neighbors` per-row loop (vyos.py 341-397),
with the single-peer detail output (fetched over the wire in the
source) passed as `detail`.  The row is split into exactly ten fields
(a different count is an unpack `ValueError`); `is_enabled` is the
absence of the "(Admin)" marker in the state/prefix column;
`is_up` is whether that column parses as an integer; a BGP version
other than "4" or "6" raises `ValueError`; the remote router id and
accepted-prefix count come from fixed-format searches of the detail
text (a failed search is an `AttributeError` on `None.group`). -/
def bgp_neighbor_row (local_as : Int) (line detail : List Char) :
    Option (List Char × PeerRec) :=
  match pySplitWs line with
  | [peer_id, bgp_version, remote_as, _mr, _ms, _tv, _iq, _oq, up_time, state_prefix] =>
    let is_enabled := !(isSubstr "(Admin)".data state_prefix)
    let is_up := (pyInt? state_prefix).isSome
    match (if bgp_version = "4".data then some "ipv4".data
      else if bgp_version = "6".data then some "ipv6".data
      else none) with
    | none => none
    | some af =>
      match searchRemoteRID detail with
      | none => none
      | some rid =>
        match searchAccepted detail with
        | none => none
        | some acc =>
          match _bgp_time_conversion up_time with
          | none => none
          | some upt =>
            match pyInt? remote_as with
            | none => none
            | some ras =>
              match pyInt? acc with
              | none => none
              | some accN =>
                some (peer_id,
                  { description := []
                    is_enabled := is_enabled
                    local_as := local_as
                    is_up := is_up
                    remote_id := rid
                    uptime := upt
                    remote_as := ras
                    address_family :=
                      (af, { sent_prefixes := none, accepted_prefixes := accN,
                             received_prefixes := none }) })
  | _ => none

/-! ## Ping result assembly (`ping`, vyos.py 667-716) -/

/-- Round-trip-time values are kept as their captured source text: the
captures contain only digits and dots, no arithmetic is performed on
them, and `float()` on such a text succeeds exactly when it has at
least one digit and at most one dot (anything else raises
`ValueError`, `none`). -/
def pyFloat? (s : List Char) : Option (List Char) :=
  if s.any Char.isDigit = true ∧ s.count '.' ≤ 1 then some s else none

/-- Greedy run of the character class of digits and dots. -/
def grabFD (cs : List Char) : List Char × List Char :=
  (cs.takeWhile (fun c => c.isDigit || c == '.'), cs.dropWhile (fun c => c.isDigit || c == '.'))

/-- Match the anchored rtt regex: four digits-and-dots runs separated
by literal slashes; only the first two groups are used by the source. -/
def matchRttAt (cs : List Char) : Option (List Char × List Char) :=
  let (g1, r1) := grabFD cs
  if g1 = [] then none else
  match r1 with
  | '/' :: r2 =>
    let (g2, r3) := grabFD r2
    if g2 = [] then none else
    match r3 with
    | '/' :: r4 =>
      let (g3, r5) := grabFD r4
      if g3 = [] then none else
      match r5 with
      | '/' :: r6 =>
        let (g4, _) := grabFD r6
        if g4 = [] then none else some (g1, g2)
      | _ => none
    | _ => none
  | _ => none

/-- `re.search` for the rtt pattern. -/
def searchRtt : List Char → Option (List Char × List Char)
  | [] => none
  | c :: cs =>
    match matchRttAt (c :: cs) with
    | some r => some r
    | none => searchRtt cs

structure PingSuccess where
  probes_sent : Int
  packet_loss : Int
  rtt_min : Option (List Char)
  rtt_avg : Option (List Char)
  rtt_stdev : Option (List Char)
  results_ip : List Char
  results_rtt : Option (List Char)
deriving DecidableEq

structure PingResult where
  error : Option (List Char)
  success : Option PingSuccess
deriving DecidableEq

/-- Result assembly of `VyOSDriver.ping` (vyos.py 667-716), with the
command's stdout and stderr passed in.  The source's non-empty test is
`err is not ""` (object identity); in CPython the empty string is
interned, so it behaves as the string comparison modelled here.
Non-empty stderr yields the error record carrying that text verbatim;
otherwise the third-from-last line gives the transmitted/received
counts (fixed token positions 0 and 3), and the second-from-last line
is searched for the rtt pattern, whose absence leaves the rtt fields
`None` rather than failing. -/
def ping (destination output err : List Char) : Option PingResult :=
  if err ≠ [] then some { error := some err, success := none }
  else
    match pyIndexNeg (pySplitChar '\n' output) 3 with
    | none => none
    | some packetLine =>
      let packet_info := (pySplitWs packetLine).map pyStripWs
      match packet_info.get? 0 with
      | none => none
      | some t0 =>
        match pyInt? t0 with
        | none => none
        | some sent =>
          match packet_info.get? 3 with
          | none => none
          | some t3 =>
            match pyInt? t3 with
            | none => none
            | some received =>
              match pyIndexNeg (pySplitChar '\n' output) 2 with
              | none => none
              | some rttLine =>
                match searchRtt rttLine with
                | some (g1, g2) =>
                  match pyFloat? g1, pyFloat? g2 with
                  | some f1, some f2 =>
                    some { error := none
                           success := some
                             { probes_sent := sent, packet_loss := sent - received,
                               rtt_min := some f1, rtt_avg := some f2, rtt_stdev := none,
                               results_ip := destination, results_rtt := some f2 } }
                  | _, _ => none
                | none =>
                  some { error := none
                         success := some
                           { probes_sent := sent, packet_loss := sent - received,
                             rtt_min := none, rtt_avg := none, rtt_stdev := none,
                             results_ip := destination, results_rtt := none } }

/-! ## Concrete inputs used by the theorems and witnesses below -/

/-- Join lines with newlines. -/
def joinNL : List (List Char) → List Char
  | [] => []
  | [l] => l
  | l :: rest => l ++ '\n' :: joinNL rest

/-- Single-quoted word, as emitted by "show configuration commands". -/
def qw (s : List Char) : List Char := sq :: (s ++ [sq])

def c9a : List Char := "set system login user alice level ".data ++ qw "admin".data
def c9b : List Char :=
  "set system login user alice authentication encrypted-password ".data ++ qw "X".data
def c9c : List Char :=
  "set system login user alice authentication public-keys alice@example.com key ".data ++
    qw "KEYDATA".data
def c9rec : UserRec := { level := 15, password := "X".data, sshkeys := ["KEYDATA".data] }

def c2line1 : List Char := "set system login user alice level bob".data
def c2line2 : List Char :=
  "set system login user alice authentication encrypted-password pw1".data
def c2line3 : List Char :=
  "set system login user bob authentication encrypted-password pw2".data
def c2input : List Char := joinNL [c2line1, c2line2, c2line3]

def gicOut0 : List Char :=
  ("eth0: <U>" ++ "\n" ++ "1 2 3 4 5 6" ++ "\n" ++ "7 8 9 10 11 12" ++ "\n").data
def gicRec0 : CounterRec :=
  { tx_errors := some "9".data, tx_discards := some "10".data, tx_octets := some "7".data,
    tx_unicast_packets := none, tx_multicast_packets := none, tx_broadcast_packets := none,
    rx_errors := some "3".data, rx_discards := some "4".data, rx_octets := some "1".data,
    rx_unicast_packets := none, rx_multicast_packets := some "6".data,
    rx_broadcast_packets := none }

def gicOut1 : List Char :=
  ("eth0: <U>" ++ "\n" ++ "eth1: <U>" ++ "\n" ++ "1 2 3 4 5 6" ++ "\n" ++
    "7 8 9 10 11 12" ++ "\n" ++ "13 14 15 16 17 18" ++ "\n").data

def bgpDetail0 : List Char :=
  ("BGP neighbor is 192.168.1.1, remote AS 64519, local AS 64520, external link" ++ "\n" ++
    "BGP version 4, remote router ID 192.168.1.1" ++ "\n" ++ "1 accepted prefixes").data
def bgpRowUp : List Char := "192.168.1.3 4 64521 7132 7103 0 0 0 01:00:00 0".data
def bgpRowActive : List Char := "192.168.1.4 4 64522 0 0 0 0 0 never Active".data
def bgpRowV5 : List Char := "192.168.1.9 5 64523 0 0 0 0 0 never Active".data
def bgpPeerUp : PeerRec :=
  { description := [], is_enabled := true, local_as := 64520, is_up := true,
    remote_id := "192.168.1.1".data, uptime := 3600, remote_as := 64521,
    address_family := ("ipv4".data,
      { sent_prefixes := none, accepted_prefixes := 1, received_prefixes := none }) }
def bgpPeerActive : PeerRec :=
  { description := [], is_enabled := true, local_as := 64520, is_up := false,
    remote_id := "192.168.1.1".data, uptime := -1, remote_as := 64522,
    address_family := ("ipv4".data,
      { sent_prefixes := none, accepted_prefixes := 1, received_prefixes := none }) }

def pingOut0 : List Char :=
  ("PING 8.8.8.8 (8.8.8.8) 100(128) bytes of data." ++ "\n" ++
    "--- 8.8.8.8 ping statistics ---" ++ "\n" ++
    "5 packets transmitted, 5 received, 0% packet loss, time 3997ms" ++ "\n" ++
    "rtt min/avg/max/mdev = 0.307/0.396/0.480/0.061 ms" ++ "\n").data

def arpHdr : List Char := "Address HWtype HWaddress Flags Mask Iface".data
def arpD1 : List Char := "10.129.2.254 ether 00:50:56:97:af:b1 C eth0".data
def arpD2 : List Char := "192.168.1.1 ether 00:50:56:ba:26:7f C eth1".data
def arpD3 : List Char := "10.129.2.97 ether 00:50:56:9f:64:09 C eth0".data

/-! ## Well-formedness predicates used in claim statements -/

/-- A nonempty decimal digit string. -/
def goodStr (s : List Char) : Prop := s ≠ [] ∧ s.all Char.isDigit = true

/-- An optional field holding a nonempty decimal digit string, i.e.
the decimal representation of a non-negative integer. -/
def isNatLit (o : Option (List Char)) : Prop :=
  ∃ s, o = some s ∧ s ≠ [] ∧ s.all Char.isDigit = true

/-- All six captures of a statistic row are digit strings. -/
def rowDigits (r : Row6) : Prop :=
  goodStr r.f0 ∧ goodStr r.f1 ∧ goodStr r.f2 ∧ goodStr r.f3 ∧ goodStr r.f4 ∧ goodStr r.f5

/-- The saved RX variables are digit strings. -/
def rxGood (s : RxSave) : Prop :=
  goodStr s.rx_errors ∧ goodStr s.rx_discards ∧ goodStr s.rx_octets ∧ goodStr s.rx_multicast

/-- The well-formedness C3 asserts of one counters record: the seven
observed fields are (the decimal text of) non-negative integers, and
the five unimplemented fields are present and explicitly `None`. -/
def recGood (r : CounterRec) : Prop :=
  isNatLit r.rx_octets ∧ isNatLit r.rx_errors ∧ isNatLit r.rx_discards ∧
  isNatLit r.rx_multicast_packets ∧ isNatLit r.tx_octets ∧ isNatLit r.tx_errors ∧
  isNatLit r.tx_discards ∧
  r.rx_unicast_packets = none ∧ r.rx_broadcast_packets = none ∧
  r.tx_unicast_packets = none ∧ r.tx_multicast_packets = none ∧
  r.tx_broadcast_packets = none

/-! # Theorems -/

/-- Claim C1 (counterexample evaluation): on the letter-tagged token
"4d23h40m" — the very uptime shown in the driver's own docstring
example of "show ip bgp summary" — `_bgp_time_conversion` does not
return 4*86400 + 23*3600 + 40*60: the regex captures the final
component's unit letter "m", which is absent from the unit table, so
the lookup raises `KeyError` and no value is returned. -/
theorem bgp_time_4d23h40m_keyerror : _bgp_time_conversion "4d23h40m".data = none := by
  decide

/-- Claim C9: on the three configuration-command lines defining user
"alice" with one `level 'admin'` line, one `encrypted-password 'X'`
line and one ten-token SSH-key line, `get_users` returns exactly the
record {level = 15, password = "X", one key}, for every one of the six
orderings of those input lines. -/
theorem get_users_alice_all_orderings :
    get_users (joinNL [c9a, c9b, c9c]) = some [("alice".data, c9rec)] ∧
    get_users (joinNL [c9a, c9c, c9b]) = some [("alice".data, c9rec)] ∧
    get_users (joinNL [c9b, c9a, c9c]) = some [("alice".data, c9rec)] ∧
    get_users (joinNL [c9b, c9c, c9a]) = some [("alice".data, c9rec)] ∧
    get_users (joinNL [c9c, c9a, c9b]) = some [("alice".data, c9rec)] ∧
    get_users (joinNL [c9c, c9b, c9a]) = some [("alice".data, c9rec)] := by
  refine ⟨?_, ?_, ?_, ?_, ?_, ?_⟩ <;> decide

/-- Claim C2 (counterexample evaluation): in `c2input` the lines that
configure user "bob" (token 4 = "bob") never set a privilege level,
yet `get_users` returns a record for "bob" instead of raising: the
line selection `user in x` treats alice's line `... level bob` as one
of bob's lines, so its `level` assignment fills bob's record
(level 0). -/
theorem get_users_missing_level_still_returns :
    ∃ m, get_users c2input = some m ∧
      (("bob".data, ({ level := 0, password := "pw2".data, sshkeys := [] } : UserRec)) ∈ m) :=
  ⟨_, rfl, by decide⟩

/-- Claim C6: for every ping invocation, non-empty stderr yields an
error record carrying the stderr text verbatim (and no success key);
and whenever a result is returned at all, exactly one of the
error/success keys is present. -/
theorem ping_error_and_exclusive :
    (∀ destination output err, err ≠ [] →
      ping destination output err = some { error := some err, success := none })
    ∧ (∀ destination output err r, ping destination output err = some r →
        (r.error.isSome = true ∧ r.success = none) ∨
        (r.error = none ∧ r.success.isSome = true)) := by
  constructor
  · intro d o e he
    rw [ping, if_pos he]
  · intro d o e r h
    rw [ping] at h
    split at h
    · cases h
      exact Or.inl ⟨rfl, rfl⟩
    · split at h
      · exact Option.noConfusion h
      · dsimp only at h
        repeat' split at h
        all_goals try exact Option.noConfusion h
        all_goals (cases h; exact Or.inr ⟨rfl, rfl⟩)

/-- Claim C6 witness: a concrete invocation with non-empty stderr. -/
theorem ping_error_and_exclusive_witness :
    ping "8.8.8.8".data pingOut0 "boom".data =
      some { error := some "boom".data, success := none } :=
  ping_error_and_exclusive.1 "8.8.8.8".data pingOut0 "boom".data (by decide)

/-- Inversion of a successful BGP row: the returned record's
`is_up`, `is_enabled` and address-family fields are determined by the
state/prefix column (token 9) and the version column (token 1). -/
theorem bgp_row_some_elim {las : Int} {line detail pid : List Char} {p : PeerRec}
    (h : bgp_neighbor_row las line detail = some (pid, p)) :
    p.is_up = (pyInt? (tok (pySplitWs line) 9)).isSome ∧
    p.is_enabled = !(isSubstr "(Admin)".data (tok (pySplitWs line) 9)) ∧
    (tok (pySplitWs line) 1 = "4".data → p.address_family.1 = "ipv4".data) ∧
    (tok (pySplitWs line) 1 = "6".data → p.address_family.1 = "ipv6".data) := by
  rw [bgp_neighbor_row] at h
  split at h
  next peer_id bgp_version remote_as mr ms tv iq oq up_time state_prefix heq =>
    have ht9 : tok (pySplitWs line) 9 = state_prefix := by rw [heq]; rfl
    have ht1 : tok (pySplitWs line) 1 = bgp_version := by rw [heq]; rfl
    rw [ht9, ht1]
    split at h
    next => exact Option.noConfusion h
    next af haf =>
      split at h
      next => exact Option.noConfusion h
      next rid hrid =>
        split at h
        next => exact Option.noConfusion h
        next acc hacc =>
          split at h
          next => exact Option.noConfusion h
          next upt hupt =>
            split at h
            next => exact Option.noConfusion h
            next ras hras =>
              split at h
              next => exact Option.noConfusion h
              next accN haccN =>
                dsimp only at h
                cases h
                refine ⟨rfl, rfl, ?_, ?_⟩
                · intro h4
                  rw [if_pos h4] at haf
                  exact (Option.some.inj haf).symm
                · intro h6
                  rw [h6, if_neg (by decide), if_pos rfl] at haf
                  exact (Option.some.inj haf).symm
  next => exact Option.noConfusion h

/-- Claim C4: whenever the per-row BGP loop body returns a peer
record, `is_up` holds iff the state/prefix column (token 9) parses as
a Python integer, and `is_enabled` is false iff that column contains
the "(Admin)" marker; concretely, a row whose column is "0" gives
`is_up = true` and a row whose column is "Active" gives
`is_up = false`. -/
theorem bgp_row_up_enabled :
    (∀ las line detail pid p, bgp_neighbor_row las line detail = some (pid, p) →
      ((p.is_up = true) ↔ (pyInt? (tok (pySplitWs line) 9)).isSome = true) ∧
      ((p.is_enabled = false) ↔ isSubstr "(Admin)".data (tok (pySplitWs line) 9) = true))
    ∧ bgp_neighbor_row 64520 bgpRowUp bgpDetail0 = some ("192.168.1.3".data, bgpPeerUp)
    ∧ bgpPeerUp.is_up = true
    ∧ bgp_neighbor_row 64520 bgpRowActive bgpDetail0 = some ("192.168.1.4".data, bgpPeerActive)
    ∧ bgpPeerActive.is_up = false := by
  refine ⟨?_, by decide, rfl, by decide, rfl⟩
  intro las line detail pid p h
  obtain ⟨hup, hen, -, -⟩ := bgp_row_some_elim h
  rw [hup, hen]
  exact ⟨Iff.rfl, by simp⟩

/-- Claim C4 witness: the general part applied to the concrete row
whose state/prefix column is "0". -/
theorem bgp_row_up_enabled_witness :
    ((bgpPeerUp.is_up = true) ↔ (pyInt? (tok (pySplitWs bgpRowUp) 9)).isSome = true) ∧
    ((bgpPeerUp.is_enabled = false) ↔
      isSubstr "(Admin)".data (tok (pySplitWs bgpRowUp) 9) = true) :=
  bgp_row_up_enabled.1 64520 bgpRowUp bgpDetail0 "192.168.1.3".data bgpPeerUp (by decide)

/-- Claim C5: whenever the per-row BGP loop body returns a peer
record, version column "4" gives address family "ipv4" and "6" gives
"ipv6"; and for any other version value the body returns no record at
all (the `ValueError` raise). -/
theorem bgp_row_address_family :
    (∀ las line detail pid p, bgp_neighbor_row las line detail = some (pid, p) →
      (tok (pySplitWs line) 1 = "4".data → p.address_family.1 = "ipv4".data) ∧
      (tok (pySplitWs line) 1 = "6".data → p.address_family.1 = "ipv6".data))
    ∧ (∀ las line detail, tok (pySplitWs line) 1 ≠ "4".data →
        tok (pySplitWs line) 1 ≠ "6".data → bgp_neighbor_row las line detail = none) := by
  constructor
  · intro las line detail pid p h
    exact (bgp_row_some_elim h).2.2
  · intro las line detail h4 h6
    rw [bgp_neighbor_row]
    split
    next peer_id bgp_version remote_as mr ms tv iq oq up_time state_prefix heq =>
      have ht : bgp_version = tok (pySplitWs line) 1 := by rw [heq]; rfl
      rw [ht, if_neg h4, if_neg h6]
    next => rfl

/-- Claim C5 witness: version "5" yields no record; and the accepted
concrete row has address family "ipv4". -/
theorem bgp_row_address_family_witness :
    bgp_neighbor_row 64520 bgpRowV5 bgpDetail0 = none ∧
    bgpPeerUp.address_family.1 = "ipv4".data :=
  ⟨bgp_row_address_family.2 64520 bgpRowV5 bgpDetail0 (by decide) (by decide),
   (bgp_row_address_family.1 64520 bgpRowUp bgpDetail0 "192.168.1.3".data bgpPeerUp
      (by decide)).1 (by decide)⟩

/-! ### Generic helper lemmas about the Python-string primitives -/

theorem all_takeWhile_eq_true (p : Char → Bool) (l : List Char) :
    (l.takeWhile p).all p = true := by
  induction l with
  | nil => rfl
  | cons x xs ih =>
    rw [List.takeWhile_cons]
    split
    next hx => simp [hx, ih]
    next => rfl

theorem dropWhile_eq_self_of_false (p : Char → Bool) (l : List Char)
    (h : ∀ x ∈ l, p x = false) : l.dropWhile p = l := by
  cases l with
  | nil => rfl
  | cons x xs => rw [List.dropWhile_cons, h x (by simp)]; simp

theorem digit_not_space {c : Char} (h : c.isDigit = true) : pyIsSpace c = false := by
  cases hc : pyIsSpace c
  · rfl
  · exfalso
    simp only [pyIsSpace, Bool.or_eq_true, beq_iff_eq] at hc
    rcases hc with ((((rfl | rfl) | rfl) | rfl) | rfl) | rfl <;> exact absurd h (by decide)

theorem pyStripWs_digits {s : List Char} (h : s.all Char.isDigit = true) :
    pyStripWs s = s := by
  have hall : ∀ x ∈ s, pyIsSpace x = false := fun x hx =>
    digit_not_space (List.all_eq_true.mp h x hx)
  rw [pyStripWs, dropWhile_eq_self_of_false _ _ hall,
      dropWhile_eq_self_of_false _ _ (fun x hx => hall x (by simpa using hx)),
      List.reverse_reverse]

theorem pyInt?_digits {s : List Char} (h1 : s ≠ []) (h2 : s.all Char.isDigit = true) :
    pyInt? s = some ((natOfDigits s : Int)) := by
  cases s with
  | nil => exact absurd rfl h1
  | cons c rest =>
    have hc : c.isDigit = true := List.all_eq_true.mp h2 c (by simp)
    unfold pyInt?
    rw [pyStripWs_digits h2]
    dsimp only
    rw [if_neg (by rintro rfl; exact absurd hc (by decide)),
        if_neg (by rintro rfl; exact absurd hc (by decide)), if_pos h2]

theorem pySplitChar_no_sep {c : Char} {l : List Char} (h : ∀ x ∈ l, x ≠ c) :
    pySplitChar c l = [l] := by
  induction l with
  | nil => rfl
  | cons x xs ih =>
    rw [pySplitChar, if_neg (h x (by simp)), ih (fun y hy => h y (by simp [hy]))]

theorem pySplitChar_append {c : Char} {l rest : List Char} (h : ∀ x ∈ l, x ≠ c) :
    pySplitChar c (l ++ c :: rest) = l :: pySplitChar c rest := by
  induction l with
  | nil => rw [List.nil_append, pySplitChar, if_pos rfl]
  | cons x xs ih =>
    rw [List.cons_append, pySplitChar, if_neg (h x (by simp)),
        ih (fun y hy => h y (by simp [hy]))]

theorem isSubstr_eq_false {pat s : List Char} {ch : Char} (hc : ch ∈ pat)
    (hs : ch ∉ s) : isSubstr pat s = false := by
  cases hq : isSubstr pat s
  · rfl
  · exfalso
    rw [isSubstr, List.any_eq_true] at hq
    obtain ⟨i, -, hp⟩ := hq
    have hpre : pat <+: s.drop i := List.isPrefixOf_iff_prefix.mp hp
    exact hs (List.mem_of_mem_drop (hpre.subset hc))

theorem hasChar_of_mem {c : Char} {s : List Char} (h : c ∈ s) : hasChar c s = true := by
  rw [hasChar, List.any_eq_true]
  exact ⟨c, h, by simp⟩

theorem optMapM_eq_map {α β : Type} (f : α → Option β) (g : α → β) :
    ∀ l : List α, (∀ x ∈ l, f x = some (g x)) → optMapM f l = some (l.map g)
  | [], _ => rfl
  | a :: as, h => by
    rw [optMapM, h a (by simp), optMapM_eq_map f g as (fun x hx => h x (by simp [hx]))]
    rfl

theorem optMapM_eq_none {α β : Type} (f : α → Option β) {l : List α} {x : α}
    (hx : x ∈ l) (hfx : f x = none) : optMapM f l = none := by
  induction l with
  | nil => simp at hx
  | cons a as ih =>
    rw [optMapM]
    rcases List.mem_cons.mp hx with rfl | hmem
    · rw [hfx]
    · split
      next => rfl
      next b hb => rw [ih hmem]

/-- Claim C8: on every colon-separated token built from three nonempty
digit strings, `_bgp_time_conversion` returns
hours * 3600 + minutes * 60 + seconds. -/
theorem bgp_colon_duration (s s1 s2 s3 : List Char)
    (hs : s = s1 ++ ':' :: (s2 ++ ':' :: s3))
    (h1 : s1 ≠ [] ∧ s1.all Char.isDigit = true)
    (h2 : s2 ≠ [] ∧ s2.all Char.isDigit = true)
    (h3 : s3 ≠ [] ∧ s3.all Char.isDigit = true) :
    _bgp_time_conversion s =
      some ((natOfDigits s1 : Int) * 3600 + (natOfDigits s2 : Int) * 60 +
        (natOfDigits s3 : Int)) := by
  subst hs
  have hdig : ∀ {t : List Char}, t.all Char.isDigit = true → ∀ x ∈ t, x ≠ ':' := by
    intro t ht x hx
    have := List.all_eq_true.mp ht x hx
    rintro rfl
    exact absurd this (by decide)
  have hni : ∀ {t : List Char}, t.all Char.isDigit = true → 'n' ∉ t := by
    intro t ht hmem
    exact absurd (List.all_eq_true.mp ht 'n' hmem) (by decide)
  have hnev : isSubstr "never".data (s1 ++ ':' :: (s2 ++ ':' :: s3)) = false := by
    refine isSubstr_eq_false (show 'n' ∈ "never".data by decide) ?_
    intro hmem
    simp only [List.mem_append, List.mem_cons] at hmem
    rcases hmem with hm | hm | hm | hm | hm
    · exact hni h1.2 hm
    · exact absurd hm (by decide)
    · exact hni h2.2 hm
    · exact absurd hm (by decide)
    · exact hni h3.2 hm
  have hcol : hasChar ':' (s1 ++ ':' :: (s2 ++ ':' :: s3)) = true :=
    hasChar_of_mem (by simp)
  rw [_bgp_time_conversion, hnev, hcol]
  rw [pySplitChar_append (hdig h1.2), pySplitChar_append (hdig h2.2),
      pySplitChar_no_sep (hdig h3.2)]
  rw [optMapM_eq_map pyInt? (fun t => (natOfDigits t : Int)) [s1, s2, s3] ?side]
  case side =>
    intro x hx
    rcases List.mem_cons.mp hx with rfl | hx'
    · exact pyInt?_digits h1.1 h1.2
    rcases List.mem_cons.mp hx' with rfl | hx''
    · exact pyInt?_digits h2.1 h2.2
    rcases List.mem_cons.mp hx'' with rfl | hx3
    · exact pyInt?_digits h3.1 h3.2
    · simp at hx3
  dsimp only [List.map]
  norm_num [_HOUR_SECONDS, _MINUTE_SECONDS]

/-- Claim C8 witness: parse("01:02:03") = 3723. -/
theorem bgp_colon_duration_witness : _bgp_time_conversion "01:02:03".data = some 3723 := by
  have h := bgp_colon_duration "01:02:03".data "01".data "02".data "03".data (by decide)
    (by decide) (by decide) (by decide)
  exact h.trans (by decide)

/-! ### ARP table (claim C7) -/

theorem get?_eq_some_tok {l : List (List Char)} {n : Nat} (h : n < l.length) :
    l.get? n = some (tok l n) := by
  rw [tok]
  cases hg : l.get? n with
  | none => exact absurd (List.get?_eq_none.mp hg) (by omega)
  | some v => rfl

theorem arpRow_of_len {line : List Char} (h : 5 ≤ (pySplitWs line).length) :
    arpRow line = some
      { interface := tok (pySplitWs line) 4, mac := tok (pySplitWs line) 2,
        ip := tok (pySplitWs line) 0, age := none } := by
  rw [arpRow]
  rw [get?_eq_some_tok (by omega), get?_eq_some_tok (by omega), get?_eq_some_tok (by omega)]

theorem arpRow_short {line : List Char} (h : (pySplitWs line).length < 5) :
    arpRow line = none := by
  rw [arpRow]
  rw [List.get?_eq_none.mpr (by omega)]

theorem pySplitChar_joinNL : ∀ {ls : List (List Char)}, ls ≠ [] →
    (∀ l ∈ ls, '\n' ∉ l) → pySplitChar '\n' (joinNL ls) = ls := by
  intro ls
  induction ls with
  | nil => intro hne _; exact absurd rfl hne
  | cons l rest ih =>
    intro _ h
    cases rest with
    | nil =>
      rw [joinNL]
      exact pySplitChar_no_sep (fun x hx hc => (h l (by simp)) (by rwa [hc] at hx))
    | cons l2 rest2 =>
      have hrest : pySplitChar '\n' (joinNL (l2 :: rest2)) = l2 :: rest2 :=
        ih (by simp) (fun t htm => h t (by simp [htm]))
      rw [show joinNL (l :: l2 :: rest2) = l ++ '\n' :: joinNL (l2 :: rest2) from rfl,
          pySplitChar_append (fun x hx hc => (h l (by simp)) (by rwa [hc] at hx)), hrest]

/-- Claim C7: on an ARP table of one header line, data lines and one
trailing line, `get_arp_table` returns exactly one entry per data line
in row order, reading ip from column 0, mac from column 2 and
interface from column 4, with age unknown; and it returns no result at
all (a malformed-row `IndexError`) as soon as some data line has fewer
than five columns. -/
theorem arp_table_rows (output hdr tl : List Char) (data : List (List Char))
    (hout : output = joinNL ([hdr] ++ data ++ [tl]))
    (hh : '\n' ∉ hdr) (ht : '\n' ∉ tl) (hd : ∀ l ∈ data, '\n' ∉ l) :
    ((∀ l ∈ data, 5 ≤ (pySplitWs l).length) →
      get_arp_table output = some (data.map (fun l =>
        { interface := tok (pySplitWs l) 4, mac := tok (pySplitWs l) 2,
          ip := tok (pySplitWs l) 0, age := none })))
    ∧ ((∃ l ∈ data, (pySplitWs l).length < 5) → get_arp_table output = none) := by
  subst hout
  have hl : pySplitChar '\n' (joinNL ([hdr] ++ data ++ [tl])) = [hdr] ++ data ++ [tl] := by
    refine pySplitChar_joinNL (by simp) ?_
    intro l hlmem
    simp only [List.mem_append, List.mem_cons, List.mem_singleton,
      List.not_mem_nil, or_false] at hlmem
    rcases hlmem with (rfl | hm) | rfl
    · exact hh
    · exact hd l hm
    · exact ht
  have hslice : (([hdr] ++ data ++ [tl]).drop 1).dropLast = data := by
    simp
  constructor
  · intro hall
    rw [get_arp_table, hl, hslice]
    exact optMapM_eq_map arpRow _ data (fun l hlm => arpRow_of_len (hall l hlm))
  · rintro ⟨l, hlm, hshort⟩
    rw [get_arp_table, hl, hslice]
    exact optMapM_eq_none arpRow hlm (arpRow_short hshort)

/-- Claim C7 witness: a five-line table (header, three data rows,
trailing blank) yields exactly the three expected entries. -/
theorem arp_table_rows_witness :
    get_arp_table (joinNL [arpHdr, arpD1, arpD2, arpD3, []]) = some
      [{ interface := "eth0".data, mac := "00:50:56:97:af:b1".data,
         ip := "10.129.2.254".data, age := none },
       { interface := "eth1".data, mac := "00:50:56:ba:26:7f".data,
         ip := "192.168.1.1".data, age := none },
       { interface := "eth0".data, mac := "00:50:56:9f:64:09".data,
         ip := "10.129.2.97".data, age := none }] := by
  have h := (arp_table_rows (joinNL ([arpHdr] ++ [arpD1, arpD2, arpD3] ++ [[]]))
    arpHdr [] [arpD1, arpD2, arpD3] rfl (by decide) (by decide) (by decide)).1 (by decide)
  exact h.trans (by decide)

/-! ### Interface counters (claims C3 and C10) -/

theorem matchNumWs_digits {cs d r : List Char} (h : matchNumWs cs = some (d, r)) :
    goodStr d := by
  rw [matchNumWs] at h
  split at h
  next => exact Option.noConfusion h
  next hd =>
    dsimp only at h
    split at h
    next => exact Option.noConfusion h
    next hw =>
      cases h
      exact ⟨hd, all_takeWhile_eq_true _ _⟩

theorem matchCount6_digits {cs : List Char} {row : Row6} {rem : List Char}
    (h : matchCount6 cs = some (row, rem)) : rowDigits row := by
  rw [matchCount6] at h
  split at h
  next => exact Option.noConfusion h
  next d0 r0 h0 =>
    split at h
    next => exact Option.noConfusion h
    next d1 r1 h1 =>
      split at h
      next => exact Option.noConfusion h
      next d2 r2 h2 =>
        split at h
        next => exact Option.noConfusion h
        next d3 r3 h3 =>
          split at h
          next => exact Option.noConfusion h
          next d4 r4 h4 =>
            split at h
            next => exact Option.noConfusion h
            next d5 r5 h5 =>
              cases h
              exact ⟨matchNumWs_digits h0, matchNumWs_digits h1, matchNumWs_digits h2,
                matchNumWs_digits h3, matchNumWs_digits h4, matchNumWs_digits h5⟩

theorem findAllCountF_digits : ∀ (fuel : Nat) (cs : List Char) (r : Row6),
    r ∈ findAllCountF fuel cs → rowDigits r := by
  intro fuel
  induction fuel with
  | zero => intro cs r hr; simp [findAllCountF] at hr
  | succ fl ih =>
    intro cs r hr
    cases cs with
    | nil => simp [findAllCountF] at hr
    | cons c rest =>
      rw [findAllCountF] at hr
      split at hr
      next row rem heq =>
        rcases List.mem_cons.mp hr with rfl | hmem
        · exact matchCount6_digits heq
        · exact ih rem r hmem
      next => exact ih rest r hr

theorem mem_dictUpdate {V : Type} {m : List (List Char × V)} {k : List Char} {v : V}
    {p : List Char × V} (h : p ∈ dictUpdate m k v) : p ∈ m ∨ p = (k, v) := by
  rw [dictUpdate] at h
  split at h
  · obtain ⟨q, hq, heq⟩ := List.mem_map.mp h
    by_cases hqk : q.1 = k
    · rw [if_pos hqk] at heq
      exact Or.inr heq.symm
    · rw [if_neg hqk] at heq
      exact Or.inl (heq ▸ hq)
  · rcases List.mem_append.mp h with hm | hm
    · exact Or.inl hm
    · exact Or.inr (List.mem_singleton.mp hm)

theorem dictUpdate_key_iff {V : Type} (m : List (List Char × V)) (k : List Char) (v : V)
    (n : List Char) :
    (∃ w, (n, w) ∈ dictUpdate m k v) ↔ (∃ w, (n, w) ∈ m) ∨ n = k := by
  constructor
  · rintro ⟨w, hw⟩
    rcases mem_dictUpdate hw with hm | heq
    · exact Or.inl ⟨w, hm⟩
    · exact Or.inr (congrArg Prod.fst heq)
  · rintro (⟨w, hw⟩ | rfl)
    · rw [dictUpdate]
      split
      next hex =>
        by_cases hnk : n = k
        · subst hnk
          obtain ⟨q, hq, hqk⟩ := hex
          exact ⟨v, List.mem_map.mpr ⟨q, hq, if_pos hqk⟩⟩
        · exact ⟨w, List.mem_map.mpr ⟨(n, w), hw, if_neg hnk⟩⟩
      next => exact ⟨w, List.mem_append.mpr (Or.inl hw)⟩
    · rw [dictUpdate]
      split
      next hex =>
        obtain ⟨q, hq, hqk⟩ := hex
        exact ⟨v, List.mem_map.mpr ⟨q, hq, if_pos hqk⟩⟩
      next => exact ⟨v, List.mem_append.mpr (Or.inr (by simp))⟩

theorem gicLoop_good (ifc : List (List Char)) :
    ∀ (rows : List Row6) (j : Nat) (rx : Option RxSave)
      (acc m : List (List Char × CounterRec)),
      (∀ r ∈ rows, rowDigits r) →
      (∀ s, rx = some s → rxGood s) →
      (∀ p ∈ acc, recGood p.2) →
      gicLoop ifc rows j rx acc = some m →
      ∀ p ∈ m, recGood p.2 := by
  intro rows
  induction rows with
  | nil =>
    intro j rx acc m _ _ hacc h
    rw [gicLoop.eq_def] at h; dsimp only at h
    cases h
    exact hacc
  | cons r rest ih =>
    intro j rx acc m hrows hrx hacc h
    rw [gicLoop.eq_def] at h; dsimp only at h
    split at h
    · refine ih (j + 1) _ acc m (fun t ht => hrows t (List.mem_cons_of_mem _ ht)) ?_ hacc h
      intro s hs
      cases hs
      obtain ⟨h0, h1, h2, h3, h4, h5⟩ := hrows r (by simp)
      exact ⟨h2, h3, h0, h5⟩
    · cases rx with
      | none => exact Option.noConfusion h
      | some rxv =>
        dsimp only at h
        split at h
        next => exact Option.noConfusion h
        next name hname =>
          refine ih (j + 1) (some rxv) _ m (fun t ht => hrows t (List.mem_cons_of_mem _ ht))
            hrx ?_ h
          intro p hp
          rcases mem_dictUpdate hp with hin | rfl
          · exact hacc p hin
          · obtain ⟨h0, h1, h2, h3, h4, h5⟩ := hrows r (by simp)
            obtain ⟨e1, e2, e3, e4⟩ := hrx rxv rfl
            exact ⟨⟨rxv.rx_octets, rfl, e3.1, e3.2⟩, ⟨rxv.rx_errors, rfl, e1.1, e1.2⟩,
              ⟨rxv.rx_discards, rfl, e2.1, e2.2⟩, ⟨rxv.rx_multicast, rfl, e4.1, e4.2⟩,
              ⟨r.f0, rfl, h0.1, h0.2⟩, ⟨r.f2, rfl, h2.1, h2.2⟩, ⟨r.f3, rfl, h3.1, h3.2⟩,
              rfl, rfl, rfl, rfl, rfl⟩

/-- Claim C3: every record ever returned by `get_interfaces_counters`
has its seven observed counter fields equal to (the text of)
non-negative integers, and its five unimplemented fields present and
explicitly marked unknown (`None`). -/
theorem counters_values_wellformed (output : List Char)
    (m : List (List Char × CounterRec)) (h : get_interfaces_counters output = some m) :
    ∀ p ∈ m, recGood p.2 := by
  rw [get_interfaces_counters] at h
  refine gicLoop_good (findIfaceNames output) (findAllCount output) 0 none [] m
    (fun r hr => findAllCountF_digits _ _ r hr) ?_ ?_ h
  · intro s hs; exact Option.noConfusion hs
  · intro p hp; simp at hp

/-- Claim C3 witness: the record produced for "eth0" on a concrete
two-row output is well-formed. -/
theorem counters_values_wellformed_witness : recGood gicRec0 :=
  counters_values_wellformed gicOut0 [("eth0".data, gicRec0)] (by decide)
    ("eth0".data, gicRec0) (by simp)

theorem gicLoop_keys_aux (ifc : List (List Char)) :
    ∀ (rows : List Row6) (k : Nat) (rx : Option RxSave)
      (acc m : List (List Char × CounterRec)) (n : List Char),
      (gicLoop ifc rows (2 * k) rx acc = some m →
        ((∃ w, (n, w) ∈ m) ↔ (∃ w, (n, w) ∈ acc) ∨
          n ∈ (ifc.drop k).take (rows.length / 2)))
      ∧ (∀ rxs, gicLoop ifc rows (2 * k + 1) (some rxs) acc = some m →
        ((∃ w, (n, w) ∈ m) ↔ (∃ w, (n, w) ∈ acc) ∨
          n ∈ (ifc.drop k).take ((rows.length + 1) / 2))) := by
  intro rows
  induction rows with
  | nil =>
    intro k rx acc m n
    constructor
    · intro h
      rw [gicLoop.eq_def] at h; dsimp only at h
      cases h
      simp
    · intro rxs h
      rw [gicLoop.eq_def] at h; dsimp only at h
      cases h
      simp
  | cons r rest ih =>
    intro k rx acc m n
    constructor
    · intro h
      rw [gicLoop.eq_def] at h; dsimp only at h
      rw [if_pos (by omega)] at h
      have hx := (ih k (some ⟨r.f2, r.f3, r.f0, r.f5⟩) acc m n).2 ⟨r.f2, r.f3, r.f0, r.f5⟩ h
      simpa using hx
    · intro rxs h
      rw [gicLoop.eq_def] at h; dsimp only at h
      rw [if_neg (by omega)] at h
      have hdiv : (2 * k + 1) / 2 = k := by omega
      rw [hdiv] at h
      split at h
      next => exact Option.noConfusion h
      next name hname =>
        have h2 : gicLoop ifc rest (2 * (k + 1)) (some rxs)
            (dictUpdate acc name (mkCounterRec rxs r)) = some m := by
          have he : 2 * k + 1 + 1 = 2 * (k + 1) := by omega
          rwa [he] at h
        have hrec := (ih (k + 1) (some rxs)
          (dictUpdate acc name (mkCounterRec rxs r)) m n).1 h2
        have hk : k < ifc.length := by
          by_contra hk
          rw [List.get?_eq_none.mpr (by omega)] at hname
          exact Option.noConfusion hname
        have hdropk : ifc.drop k = name :: ifc.drop (k + 1) := by
          rw [List.drop_eq_getElem_cons hk]
          have hg : ifc.get? k = some ifc[k] := List.get?_eq_get hk
          rw [hname] at hg
          rw [← Option.some.inj hg]
        rw [hrec, dictUpdate_key_iff, hdropk]
        have hlen : ((r :: rest).length + 1) / 2 = rest.length / 2 + 1 := by
          simp only [List.length_cons]
          omega
        rw [hlen, List.take_succ_cons, List.mem_cons]
        tauto

/-- Claim C10: whenever `get_interfaces_counters` returns a result,
its keys are exactly the first k = (number of scanned statistic
rows) / 2 interface names — entries are only ever added on the TX
(odd-index) row of a pair, so an interface whose RX row is the last,
unpaired row gets no entry. -/
theorem counters_pairing (output : List Char) (m : List (List Char × CounterRec))
    (h : get_interfaces_counters output = some m) (n : List Char) :
    (∃ w, (n, w) ∈ m) ↔
      n ∈ (findIfaceNames output).take ((findAllCount output).length / 2) := by
  rw [get_interfaces_counters] at h
  have h0 : gicLoop (findIfaceNames output) (findAllCount output) (2 * 0) none [] =
      some m := by simpa using h
  have hx := (gicLoop_keys_aux (findIfaceNames output) (findAllCount output) 0 none [] m
    n).1 h0
  simpa using hx

/-- Claim C10 witness: on a concrete output with two interface headers
and three statistic rows (so k = 1), "eth0" has an entry and "eth1"
(whose RX row is the unpaired third row) has none. -/
theorem counters_pairing_witness :
    ((∃ w, ("eth0".data, w) ∈ [("eth0".data, gicRec0)]) ↔
      "eth0".data ∈ (findIfaceNames gicOut1).take ((findAllCount gicOut1).length / 2)) ∧
    ((∃ w, ("eth1".data, w) ∈ [("eth0".data, gicRec0)]) ↔
      "eth1".data ∈ (findIfaceNames gicOut1).take ((findAllCount gicOut1).length / 2)) :=
  ⟨counters_pairing gicOut1 [("eth0".data, gicRec0)] (by decide) "eth0".data,
   counters_pairing gicOut1 [("eth0".data, gicRec0)] (by decide) "eth1".data⟩

end VyOS
